import Mathlib

/-!
Verification of the core of the ipts-backend volunteering platform.

The development shallowly embeds the data model (`innopoints/models/models.py`)
and the core write/read operations of the Flask views
(`innopoints/views/application.py`, `innopoints/views/project.py`,
`innopoints/views/account.py`) as pure Lean functions over an explicit
database state.  Each HTTP `abort(code)` is modelled as `Except.error code`;
a successful request returns the committed database state.  The relational
store's check constraint on the `transactions` table (declared on the
`Transaction` model) is enforced at commit time, mirroring the database.

Timestamps are modelled as integers; JSON payloads of notifications are
modelled as a record of the optional reference columns actually used by the
views.
-/

namespace Innopoints

/-- Modelled from the spec: the Project lifetime stage enum
(draft, ongoing, finalizing, finished); the `Project` model itself is not
present in `models.py`, but its fields and this enum are fixed by the spec
and by every view that imports `LifetimeStage`. -/
inductive LifetimeStage where
  | draft
  | ongoing
  | finalizing
  | finished
deriving DecidableEq

/-- Modelled from the spec: the admin review status of a finalizing project
(none/pending/approved/rejected); the spec's `none` value is called
`unreviewed` here to avoid clashing with `Option.none`. -/
inductive ReviewStatus where
  | unreviewed
  | pending
  | approved
  | rejected
deriving DecidableEq

/-- Volunteering application's status, from `models.ApplicationStatus`. -/
inductive ApplicationStatus where
  | approved
  | pending
  | rejected
deriving DecidableEq

/-- Status of a product variety stock change, from `models.StockChangeStatus`. -/
inductive StockChangeStatus where
  | carried_out
  | pending
  | ready_for_pickup
  | rejected
deriving DecidableEq

/-- Modelled from the spec: the notification type tags used by the core views
(the enum in the checked-in `models.py` is a stale revision; these are the
members every view refers to). -/
inductive NotificationType where
  | added_as_moderator
  | project_review_requested
  | project_review_status_changed
  | claim_innopoints
  | application_status_changed
  | all_feedback_in
  | manual_transaction
  | service
deriving DecidableEq

/-- An account of a logged-in user, from `models.Account` (the fields the core
operations read). -/
structure Account where
  email : String
  is_admin : Bool
deriving DecidableEq

/-- Modelled from the spec: a volunteering project with a name, organizer,
creator, moderator set, lifetime stage, review status and admin feedback.
The `organizer` column is a string; the view `publish_project` treats the
empty string as "not set" (Python falsiness). Moderators are stored as
account e-mails. -/
structure Project where
  id : Nat
  name : String
  organizer : String
  creator_email : String
  moderators : List String
  lifetime_stage : LifetimeStage
  review_status : ReviewStatus
  admin_feedback : Option String
  creation_time : Int
deriving DecidableEq

/-- A volunteering activity in a project, from `models.Activity`. Competences
are kept as a list of competence ids (the `activity_competence` association). -/
structure Activity where
  id : Nat
  project_id : Nat
  name : Option String
  internal : Bool
  draft : Bool
  fixed_reward : Bool
  working_hours : Int
  reward_rate : Int
  people_required : Int
  telegram_required : Bool
  application_deadline : Option Int
  competences : List Nat
  feedback_questions : List String
deriving DecidableEq

/-- A volunteering application, from `models.Application`. -/
structure Application where
  id : Nat
  applicant_email : String
  activity_id : Nat
  comment : Option String
  application_time : Int
  telegram_username : Option String
  status : ApplicationStatus
  actual_hours : Int
deriving DecidableEq

/-- A volunteer's feedback on an activity, from `models.Feedback`. -/
structure Feedback where
  id : Nat
  application_id : Nat
  answers : List String
  competences : List Nat
deriving DecidableEq

/-- A change in the innopoints balance, from `models.Transaction`.  The table
carries the check constraint `(stock_change_id IS NULL) != (feedback_id IS
NULL)`. -/
structure Transaction where
  id : Nat
  account_email : String
  change : Int
  stock_change_id : Option Nat
  feedback_id : Option Nat
deriving DecidableEq

/-- A change in the amount of a product variety, from `models.StockChange`. -/
structure StockChange where
  id : Nat
  amount : Int
  time : Int
  status : StockChangeStatus
  account_email : String
  variety_id : Nat
deriving DecidableEq

/-- A product variety, from `models.Variety` (only the columns the timeline
joins on). -/
structure Variety where
  id : Nat
  product_id : Nat
deriving DecidableEq

/-- An item in the store, from `models.Product` (only the columns the timeline
reads). -/
structure Product where
  id : Nat
  name : String
deriving DecidableEq

/-- Modelled from the spec: a notification row with a recipient, a type tag, a
read flag, a timestamp and an optional JSON payload referencing a project /
activity / application / account; the checked-in `models.py` revision lacks
the `payload` and `timestamp` columns that the views read. -/
structure Notification where
  recipient_email : String
  ntype : NotificationType
  is_read : Bool
  timestamp : Int
  payload_project_id : Option Nat
  payload_activity_id : Option Nat
  payload_application_id : Option Nat
  payload_account_email : Option String
deriving DecidableEq

/-- The relational store: one list per table, plus a supply of fresh primary
keys for newly inserted rows. -/
structure DBState where
  accounts : List Account
  projects : List Project
  activities : List Activity
  applications : List Application
  feedbacks : List Feedback
  transactions : List Transaction
  stock_changes : List StockChange
  varieties : List Variety
  products : List Product
  notifications : List Notification
  nextId : Nat
deriving DecidableEq

/-- `Model.query.get(id)` for projects. -/
def findProject (s : DBState) (id : Nat) : Option Project :=
  s.projects.find? (fun p => p.id == id)

/-- `Model.query.get(id)` for activities. -/
def findActivity (s : DBState) (id : Nat) : Option Activity :=
  s.activities.find? (fun a => a.id == id)

/-- `Model.query.get(id)` for applications. -/
def findApplication (s : DBState) (id : Nat) : Option Application :=
  s.applications.find? (fun a => a.id == id)

/-- The `project.activities` relationship. -/
def projectActivities (s : DBState) (project_id : Nat) : List Activity :=
  s.activities.filter (fun a => a.project_id == project_id)

/-- The `activity.applications` relationship. -/
def activityApplications (s : DBState) (activity_id : Nat) : List Application :=
  s.applications.filter (fun a => a.activity_id == activity_id)

/-- The `application.feedback` relationship, as a Boolean existence check
(`application.feedback is not None`). -/
def hasFeedback (s : DBState) (application_id : Nat) : Bool :=
  s.feedbacks.any (fun f => f.application_id == application_id)

/-- The database check constraint on `transactions`:
`(stock_change_id IS NULL) != (feedback_id IS NULL)`. -/
def transactionCheck (t : Transaction) : Bool :=
  t.stock_change_id.isNone != t.feedback_id.isNone

/-- A commit inserting one transaction row: the store rejects the row (the
commit raises `IntegrityError`, which every view maps to a 400 abort) when the
check constraint fails. -/
def insertTransaction (s : DBState) (t : Transaction) : Except Nat DBState :=
  if transactionCheck t then
    Except.ok { s with transactions := s.transactions ++ [t] }
  else
    Except.error 400

/-- The committed state of a request: an aborted request rolls the transaction
back, leaving the store unchanged. -/
def runExcept (s : DBState) : Except Nat DBState → DBState
  | Except.ok s' => s'
  | Except.error _ => s

/-- All admin accounts (`Account.query.filter_by(is_admin=True)`). -/
def adminEmails (s : DBState) : List String :=
  (s.accounts.filter (fun a => a.is_admin)).map (fun a => a.email)

/-- The pending "claim innopoints" notifications matched by the query in
`leave_feedback`: recipient is the caller, type `claim_innopoints`, payload
`application_id` equal to the application. -/
def claimMatches (s : DBState) (caller_email : String) (application_id : Nat) :
    List Notification :=
  s.notifications.filter (fun n =>
    n.recipient_email == caller_email &&
    n.ntype == NotificationType.claim_innopoints &&
    n.payload_application_id == some application_id)

/-- The `all_feedback_in` scan of `leave_feedback`: every application of every
non-internal activity of the project has feedback. -/
def allFeedbackIn (s : DBState) (project_id : Nat) : Bool :=
  (projectActivities s project_id).all (fun activity =>
    activity.internal ||
    (activityApplications s activity.id).all (fun application =>
      hasFeedback s application.id))

/-- The recipients of the `all_feedback_in` notification:
`{*project.moderators, *admins}` (a set union, modelled as the moderator list
followed by the admins not already in it). -/
def moderatorsAndAdmins (s : DBState) (p : Project) : List String :=
  p.moderators ++ (adminEmails s).filter (fun e => !p.moderators.contains e)

/-- A notification row as inserted by `core.notifications.notify` (read flag
off, payload limited to the keys the caller passes). -/
def mkNotification (recipient : String) (ntype : NotificationType) (now : Int)
    (pid aid apid : Option Nat) (acc : Option String) : Notification :=
  { recipient_email := recipient
    ntype := ntype
    is_read := false
    timestamp := now
    payload_project_id := pid
    payload_activity_id := aid
    payload_application_id := apid
    payload_account_email := acc }

/-- `leave_feedback` (POST feedback), from `views/application.py`.  The checks
appear in source order; the schema-level parsing of the answers is the typed
`answers` argument.  The `one_or_none()` query on claim notifications raises
(a 500) when more than one row matches; the commit persists the feedback, the
reward transaction and the read-flag update atomically, and the post-commit
`all_feedback_in` scan notifies moderators and admins. -/
def leave_feedback (s : DBState) (caller : Account)
    (project_id activity_id application_id : Nat) (answers : List String)
    (now : Int) : Except Nat DBState :=
  match findApplication s application_id with
  | none => Except.error 404
  | some application =>
    match findActivity s activity_id with
    | none => Except.error 404
    | some activity =>
      match findProject s project_id with
      | none => Except.error 404
      | some project =>
        if activity.project_id ≠ project_id ∨ application.activity_id ≠ activity.id then
          Except.error 400
        else if application.applicant_email ≠ caller.email then
          Except.error 401
        else if hasFeedback s application_id then
          Except.error 400
        else if application.status ≠ ApplicationStatus.approved then
          Except.error 400
        else if project.lifetime_stage ≠ LifetimeStage.finished then
          Except.error 400
        else if answers.length ≠ activity.feedback_questions.length then
          Except.error 400
        else if 2 ≤ (claimMatches s caller.email application_id).length then
          Except.error 500
        else
          let nf : Feedback :=
            { id := s.nextId
              application_id := application_id
              answers := answers
              competences := [] }
          let nt : Transaction :=
            { id := s.nextId + 1
              account_email := caller.email
              change := application.actual_hours * activity.reward_rate
              stock_change_id := none
              feedback_id := some nf.id }
          if transactionCheck nt then
            let s1 : DBState :=
              { s with
                feedbacks := s.feedbacks ++ [nf]
                transactions := s.transactions ++ [nt]
                notifications := s.notifications.map (fun n =>
                  if n.recipient_email == caller.email &&
                     n.ntype == NotificationType.claim_innopoints &&
                     n.payload_application_id == some application_id then
                    { n with is_read := true }
                  else n)
                nextId := s.nextId + 2 }
            if allFeedbackIn s1 project_id then
              Except.ok
                { s1 with
                  notifications := s1.notifications ++
                    (moderatorsAndAdmins s1 project).map (fun m =>
                      mkNotification m NotificationType.all_feedback_in now
                        (some project_id) none none none) }
            else
              Except.ok s1
          else
            Except.error 400

/-- Parse the `status` field of an application PATCH
(`getattr(ApplicationStatus, ...)`). -/
def parseStatus : String → Option ApplicationStatus
  | "approved" => some ApplicationStatus.approved
  | "pending" => some ApplicationStatus.pending
  | "rejected" => some ApplicationStatus.rejected
  | _ => none

/-- The `'status' in request.json` branch of `edit_application`: requires an
ongoing project, a valid status name, and refuses to change the status of
internal applications. -/
def statusStep (project : Project) (activity : Activity)
    (application : Application) :
    Option String → Except Nat Application
  | none => Except.ok application
  | some str =>
    if project.lifetime_stage ≠ LifetimeStage.ongoing then
      Except.error 400
    else
      match parseStatus str with
      | none => Except.error 400
      | some st =>
        if activity.internal ∧ application.status ≠ st then
          Except.error 400
        else
          Except.ok { application with status := st }

/-- The `'actual_hours' in request.json` branch of `edit_application`:
requires a finalizing project, a non-negative integer, `{0,1}` for
fixed-reward activities, and an approved application. -/
def hoursStep (project : Project) (activity : Activity)
    (application : Application) :
    Option Int → Except Nat Application
  | none => Except.ok application
  | some hours =>
    if project.lifetime_stage ≠ LifetimeStage.finalizing then
      Except.error 400
    else if hours < 0 then
      Except.error 400
    else if activity.fixed_reward ∧ ¬(hours = 0 ∨ hours = 1) then
      Except.error 400
    else if application.status ≠ ApplicationStatus.approved then
      Except.error 400
    else
      Except.ok { application with actual_hours := hours }

/-- `edit_application` (PATCH application), from `views/application.py`:
moderator/admin only; the status branch and the actual-hours branch run in
source order on the in-session row, the commit stores the result, and a
status-changed notification is sent when the status actually changed. -/
def edit_application (s : DBState) (caller : Account)
    (project_id activity_id application_id : Nat)
    (statusIn : Option String) (hoursIn : Option Int) (now : Int) :
    Except Nat DBState :=
  match findApplication s application_id with
  | none => Except.error 404
  | some application =>
    match findActivity s activity_id with
    | none => Except.error 404
    | some activity =>
      match findProject s project_id with
      | none => Except.error 404
      | some project =>
        if activity.project_id ≠ project_id ∨ application.activity_id ≠ activity.id then
          Except.error 400
        else if ¬(project.moderators.contains caller.email) ∧ ¬caller.is_admin then
          Except.error 401
        else
          match statusStep project activity application statusIn with
          | Except.error e => Except.error e
          | Except.ok app1 =>
            match hoursStep project activity app1 hoursIn with
            | Except.error e => Except.error e
            | Except.ok app2 =>
              let s1 : DBState :=
                { s with
                  applications := s.applications.map (fun a =>
                    if a.id == application_id then app2 else a) }
              if app2.status ≠ application.status then
                Except.ok
                  { s1 with
                    notifications := s1.notifications ++
                      [mkNotification application.applicant_email
                        NotificationType.application_status_changed now
                        (some project_id) (some activity_id)
                        (some application_id) none] }
              else
                Except.ok s1

/-- `publish_project` (POST publish), from `views/project.py`: draft only,
creator or admin; requires an organizer, at least one activity and 1-3
competences on every activity; moves the stage to ongoing and notifies all
moderators of their moderator role. -/
def publish_project (s : DBState) (caller : Account) (project_id : Nat)
    (now : Int) : Except Nat DBState :=
  match findProject s project_id with
  | none => Except.error 404
  | some project =>
    if project.lifetime_stage ≠ LifetimeStage.draft then
      Except.error 400
    else if ¬caller.is_admin ∧ project.creator_email ≠ caller.email then
      Except.error 401
    else if project.organizer = "" then
      Except.error 400
    else if projectActivities s project_id = [] then
      Except.error 400
    else if ¬(∀ a ∈ projectActivities s project_id,
        1 ≤ a.competences.length ∧ a.competences.length ≤ 3) then
      Except.error 400
    else
      let s1 : DBState :=
        { s with
          projects := s.projects.map (fun q =>
            if q.id == project_id then
              { q with lifetime_stage := LifetimeStage.ongoing }
            else q) }
      Except.ok
        { s1 with
          notifications := s1.notifications ++
            project.moderators.map (fun m =>
              mkNotification m NotificationType.added_as_moderator now
                (some project_id) none none (some caller.email)) }

/-- `request_review` (PATCH request_review), from `views/project.py`:
finalizing only, creator only, not already pending or approved; sets the
review status to pending and notifies all admins. -/
def request_review (s : DBState) (caller : Account) (project_id : Nat)
    (now : Int) : Except Nat DBState :=
  match findProject s project_id with
  | none => Except.error 404
  | some project =>
    if project.lifetime_stage ≠ LifetimeStage.finalizing then
      Except.error 400
    else if caller.email ≠ project.creator_email then
      Except.error 401
    else if project.review_status = ReviewStatus.pending then
      Except.error 400
    else if project.review_status = ReviewStatus.approved then
      Except.error 400
    else
      let s1 : DBState :=
        { s with
          projects := s.projects.map (fun q =>
            if q.id == project_id then
              { q with review_status := ReviewStatus.pending }
            else q) }
      Except.ok
        { s1 with
          notifications := s1.notifications ++
            (adminEmails s).map (fun m =>
              mkNotification m NotificationType.project_review_requested now
                (some project_id) none none none) }

/-- Parse the `review_status` field of the review PATCH (the `allowed_states`
dictionary). -/
def parseReview : String → Option ReviewStatus
  | "approved" => some ReviewStatus.approved
  | "rejected" => some ReviewStatus.rejected
  | _ => none

/-- The claim-innopoints notification sent per application when a review is
approved. -/
def claimNotif (recipient : String) (project_id activity_id application_id : Nat)
    (now : Int) : Notification :=
  mkNotification recipient NotificationType.claim_innopoints now
    (some project_id) (some activity_id) (some application_id) none

/-- `review_project` (PATCH review_status), from `views/project.py`:
finalizing only, admin only, review status pending only; stores the decision
(an approval also forces the stage to finished and stores any admin
feedback), notifies all moderators of the decision, and, on approval, sends a
claim-innopoints notification for every application of every activity of the
project. -/
def review_project (s : DBState) (caller : Account) (project_id : Nat)
    (decision : String) (admin_feedback : Option String) (now : Int) :
    Except Nat DBState :=
  match findProject s project_id with
  | none => Except.error 404
  | some project =>
    if project.lifetime_stage ≠ LifetimeStage.finalizing then
      Except.error 400
    else if ¬caller.is_admin then
      Except.error 401
    else if project.review_status ≠ ReviewStatus.pending then
      Except.error 400
    else
      match parseReview decision with
      | none => Except.error 400
      | some rs =>
        let p' : Project :=
          { project with
            review_status := rs
            lifetime_stage :=
              if rs = ReviewStatus.approved then LifetimeStage.finished
              else project.lifetime_stage
            admin_feedback :=
              match admin_feedback with
              | some t => some t
              | none => project.admin_feedback }
        let s1 : DBState :=
          { s with
            projects := s.projects.map (fun q =>
              if q.id == project_id then p' else q) }
        let modNotifs : List Notification :=
          project.moderators.map (fun m =>
            mkNotification m NotificationType.project_review_status_changed now
              (some project_id) none none none)
        let claimNotifs : List Notification :=
          if rs = ReviewStatus.approved then
            (projectActivities s1 project_id).flatMap (fun activity =>
              (activityApplications s1 activity.id).map (fun application =>
                claimNotif application.applicant_email project_id activity.id
                  application.id now))
          else []
        Except.ok
          { s1 with
            notifications := s1.notifications ++ modNotifs ++ claimNotifs }

/-- The PATCH on a project (`ProjectDetailAPI.patch`): creator or admin, draft
or ongoing stage only; only the name, image, organizer and moderators can be
loaded — the lifetime stage is never touched. -/
def edit_project (s : DBState) (caller : Account) (project_id : Nat)
    (nameIn organizerIn : Option String) (moderatorsIn : Option (List String)) :
    Except Nat DBState :=
  match findProject s project_id with
  | none => Except.error 404
  | some project =>
    if ¬caller.is_admin ∧ caller.email ≠ project.creator_email then
      Except.error 401
    else if project.lifetime_stage ≠ LifetimeStage.draft ∧
        project.lifetime_stage ≠ LifetimeStage.ongoing then
      Except.error 400
    else
      Except.ok
        { s with
          projects := s.projects.map (fun q =>
            if q.id == project_id then
              { q with
                name := nameIn.getD q.name
                organizer := organizerIn.getD q.organizer
                moderators := moderatorsIn.getD q.moderators }
            else q) }

/-- `change_balance` (PATCH balance), from `views/account.py`: a non-zero
change inserts a transaction with neither a stock-change nor a feedback link
(the commit is subject to the transactions check constraint) and then sends a
manual-transaction notification; a zero change does nothing.  (The
notification payload carries the transaction id, which this embedding does
not keep.) -/
def change_balance (s : DBState) (email : String) (change : Int) (now : Int) :
    Except Nat DBState :=
  match s.accounts.find? (fun a => a.email == email) with
  | none => Except.error 404
  | some user =>
    if change ≠ 0 then
      match insertTransaction s
        { id := s.nextId
          account_email := user.email
          change := change
          stock_change_id := none
          feedback_id := none } with
      | Except.error e => Except.error e
      | Except.ok s1 =>
        Except.ok
          { s1 with
            notifications := s1.notifications ++
              [mkNotification user.email NotificationType.manual_transaction
                now none none none none] }
    else
      Except.ok s

/-- `reclaim_innopoints` (POST reclaim-innopoints), from `views/account.py`.
The lookup and password check against the legacy sqlite store are external
I/O; the matched legacy balance is the `points` argument.  A non-zero balance
inserts a transaction with neither link, subject to the check constraint. -/
def reclaim_innopoints (s : DBState) (caller : Account) (points : Int) :
    Except Nat DBState :=
  if points ≠ 0 then
    insertTransaction s
      { id := s.nextId
        account_email := caller.email
        change := points
        stock_change_id := none
        feedback_id := none }
  else
    Except.ok s

/-- The count subquery of `Activity.vacant_spots`: the number of approved
applications on the activity. -/
def approvedCount (s : DBState) (a : Activity) : Nat :=
  (s.applications.filter (fun ap =>
    ap.activity_id == a.id && ap.status == ApplicationStatus.approved)).length

/-- `Activity.vacant_spots`, from `models.py`: `people_required` minus the
number of approved applications, floored at `-1`. -/
def vacant_spots (s : DBState) (a : Activity) : Int :=
  max (a.people_required - (approvedCount s a : Int)) (-1)

/-- Whether a request aborted. -/
def isFailure : Except Nat DBState → Bool
  | Except.error _ => true
  | Except.ok _ => false

/-- The type tag attached to each timeline row by `subquery_to_events`. -/
inductive EventTag where
  | application
  | purchase
  | promotion
  | project
deriving DecidableEq

/-- One row of the timeline union: the `entry_time` column, the type tag, and
the id of the row the packed JSON payload is built from. -/
structure TimelineEvent where
  entry_time : Int
  tag : EventTag
  ref : Nat
deriving DecidableEq

/-- `Variety.query.get`. -/
def findVariety (s : DBState) (id : Nat) : Option Variety :=
  s.varieties.find? (fun v => v.id == id)

/-- `Product.query.get`. -/
def findProduct (s : DBState) (id : Nat) : Option Product :=
  s.products.find? (fun p => p.id == id)

/-- The `applications` source of `get_timeline`: the user's applications,
inner-joined to their (non-internal) activity and its project. -/
def appEvents (s : DBState) (user : String) : List TimelineEvent :=
  s.applications.filterMap (fun ap =>
    if ap.applicant_email == user then
      match findActivity s ap.activity_id with
      | some activity =>
        if activity.internal then none
        else
          match findProject s activity.project_id with
          | some _ => some ⟨ap.application_time, EventTag.application, ap.id⟩
          | none => none
      | none => none
    else none)

/-- The `purchases` source of `get_timeline`: the user's negative stock
changes, inner-joined to their variety and product. -/
def purchaseEvents (s : DBState) (user : String) : List TimelineEvent :=
  s.stock_changes.filterMap (fun sc =>
    if sc.account_email == user ∧ sc.amount < (0 : Int) then
      match findVariety s sc.variety_id with
      | some v =>
        match findProduct s v.product_id with
        | some _ => some ⟨sc.time, EventTag.purchase, sc.id⟩
        | none => none
      | none => none
    else none)

/-- The `promotions` source of `get_timeline`: moderator-role notifications
the user received, inner-joined to the referenced project, excluding the
user's own projects and drafts. -/
def promotionEvents (s : DBState) (user : String) : List TimelineEvent :=
  s.notifications.filterMap (fun n =>
    if n.recipient_email == user ∧ n.ntype = NotificationType.added_as_moderator then
      match n.payload_project_id with
      | some pid =>
        match findProject s pid with
        | some p =>
          if p.creator_email ≠ user ∧ p.lifetime_stage ≠ LifetimeStage.draft then
            some ⟨n.timestamp, EventTag.promotion, pid⟩
          else none
        | none => none
      | none => none
    else none)

/-- The `projects` source of `get_timeline`: non-draft projects the user
created. -/
def projectEvents (s : DBState) (user : String) : List TimelineEvent :=
  s.projects.filterMap (fun p =>
    if p.creator_email == user ∧ p.lifetime_stage ≠ LifetimeStage.draft then
      some ⟨p.creation_time, EventTag.project, p.id⟩
    else none)

/-- The per-source date-window filter (`entry_time >= start_date` and
`entry_time <= end_date`), applied before the union. -/
def inWindow (start_date end_date : Int) (e : TimelineEvent) : Bool :=
  decide (start_date ≤ e.entry_time) && decide (e.entry_time ≤ end_date)

/-- The four date-filtered sources, unioned. -/
def timelineRows (s : DBState) (user : String) (start_date end_date : Int) :
    List TimelineEvent :=
  (appEvents s user).filter (inWindow start_date end_date) ++
    (purchaseEvents s user).filter (inWindow start_date end_date) ++
    (promotionEvents s user).filter (inWindow start_date end_date) ++
    (projectEvents s user).filter (inWindow start_date end_date)

/-- The `ORDER BY entry_time DESC` ordering of the feed. -/
def timeDesc (a b : TimelineEvent) : Prop :=
  b.entry_time ≤ a.entry_time

instance : DecidableRel timeDesc :=
  fun a b => inferInstanceAs (Decidable (b.entry_time ≤ a.entry_time))

instance : IsTotal TimelineEvent timeDesc :=
  ⟨fun a b => le_total b.entry_time a.entry_time⟩

instance : IsTrans TimelineEvent timeDesc :=
  ⟨fun _ _ _ h1 h2 => le_trans h2 h1⟩

/-- The feed returned by `get_timeline`: the unioned rows ordered by
`entry_time` descending. -/
def get_timeline (s : DBState) (user : String) (start_date end_date : Int) :
    List TimelineEvent :=
  List.insertionSort timeDesc (timelineRows s user start_date end_date)

/-- The `more` flag of `get_timeline`: each source, without the window filter,
tested for a row at or before `start_date`, OR-reduced. -/
def timelineMore (s : DBState) (user : String) (start_date : Int) : Bool :=
  (appEvents s user).any (fun e => decide (e.entry_time ≤ start_date)) ||
    (purchaseEvents s user).any (fun e => decide (e.entry_time ≤ start_date)) ||
    (promotionEvents s user).any (fun e => decide (e.entry_time ≤ start_date)) ||
    (projectEvents s user).any (fun e => decide (e.entry_time ≤ start_date))

/-- One invocation of a modelled core write operation, with its caller and
request data. -/
inductive CoreOp where
  | leaveFeedback (caller : Account) (project_id activity_id application_id : Nat)
      (answers : List String) (now : Int)
  | editApplication (caller : Account) (project_id activity_id application_id : Nat)
      (statusIn : Option String) (hoursIn : Option Int) (now : Int)
  | publishProject (caller : Account) (project_id : Nat) (now : Int)
  | requestReview (caller : Account) (project_id : Nat) (now : Int)
  | reviewProject (caller : Account) (project_id : Nat) (decision : String)
      (admin_feedback : Option String) (now : Int)
  | editProject (caller : Account) (project_id : Nat)
      (nameIn organizerIn : Option String) (moderatorsIn : Option (List String))
  | changeBalance (email : String) (change : Int) (now : Int)
  | reclaimInnopoints (caller : Account) (points : Int)

/-- Dispatch a core operation to its view function. -/
def applyOp (op : CoreOp) (s : DBState) : Except Nat DBState :=
  match op with
  | CoreOp.leaveFeedback caller pid aid apid answers now =>
    leave_feedback s caller pid aid apid answers now
  | CoreOp.editApplication caller pid aid apid statusIn hoursIn now =>
    edit_application s caller pid aid apid statusIn hoursIn now
  | CoreOp.publishProject caller pid now => publish_project s caller pid now
  | CoreOp.requestReview caller pid now => request_review s caller pid now
  | CoreOp.reviewProject caller pid decision fb now =>
    review_project s caller pid decision fb now
  | CoreOp.editProject caller pid nameIn organizerIn moderatorsIn =>
    edit_project s caller pid nameIn organizerIn moderatorsIn
  | CoreOp.changeBalance email change now => change_balance s email change now
  | CoreOp.reclaimInnopoints caller points => reclaim_innopoints s caller points

/-- The committed state after a sequence of requests: each aborted request
leaves the store as it was. -/
def runOps (s : DBState) (ops : List CoreOp) : DBState :=
  ops.foldl (fun st op => runExcept st (applyOp op st)) s

/-- The position of a stage in the draft-to-finished order. -/
def stageRank : LifetimeStage → Nat
  | LifetimeStage.draft => 0
  | LifetimeStage.ongoing => 1
  | LifetimeStage.finalizing => 2
  | LifetimeStage.finished => 3

/-- Whether a transaction is linked to the given application through a
feedback row (`Transaction.feedback_id` pointing at a `Feedback` of that
application). -/
def linkedToApp (s : DBState) (application_id : Nat) (t : Transaction) : Bool :=
  match t.feedback_id with
  | some fid => s.feedbacks.any (fun f => f.id == fid && f.application_id == application_id)
  | none => false

/-- The number of ledger transactions linked to an application via feedback. -/
def linkedCount (s : DBState) (application_id : Nat) : Nat :=
  s.transactions.countP (linkedToApp s application_id)

/-- Fresh-key discipline of the store: every feedback primary key, and every
feedback key referenced from the ledger, is below the next key to be
assigned. -/
def FreshIds (s : DBState) : Prop :=
  (∀ f ∈ s.feedbacks, f.id < s.nextId) ∧
  (∀ t ∈ s.transactions, ∀ fid, t.feedback_id = some fid → fid < s.nextId)

/-- The mutual-exclusion invariant of the ledger: every persisted transaction
satisfies the check constraint (exactly one of the stock-change and feedback
links is set). -/
def TxnXorOk (s : DBState) : Prop :=
  ∀ t ∈ s.transactions, transactionCheck t = true

/-- The two states list the same project keys in the same positions. -/
def ProjectIdsEq (s s' : DBState) : Prop :=
  s'.projects.map (fun p => p.id) = s.projects.map (fun p => p.id)

/-- Every project present in both states has not moved backwards in the
draft-to-finished order. -/
def StageMono (s s' : DBState) : Prop :=
  ∀ p ∈ s.projects, ∀ p' ∈ s'.projects, p.id = p'.id →
    stageRank p.lifetime_stage ≤ stageRank p'.lifetime_stage

/-- Primary-key uniqueness for the projects table. -/
def ProjectIdsNodup (s : DBState) : Prop :=
  (s.projects.map (fun p => p.id)).Nodup

/-- The claimed effect of an approved review, as the spec states it: every
claim-innopoints notification created by the call belongs to an application
of a non-internal activity of the project. -/
def reviewClaimsOnlyNonInternal (s s' : DBState) (project_id : Nat) : Prop :=
  ∀ n ∈ s'.notifications, n.ntype = NotificationType.claim_innopoints →
    n ∉ s.notifications →
    ∃ activity ∈ projectActivities s project_id, activity.internal = false ∧
      ∃ application ∈ activityApplications s activity.id,
        n.payload_application_id = some application.id ∧
        n.recipient_email = application.applicant_email

/-! Section: Concrete sample data used by witnesses and counterexamples -/

/-- An empty database. -/
def emptyDB : DBState :=
  { accounts := [], projects := [], activities := [], applications := []
    feedbacks := [], transactions := [], stock_changes := [], varieties := []
    products := [], notifications := [], nextId := 0 }

/-- A sample admin account. -/
def adminAcc : Account := ⟨"admin@example.org", true⟩

/-- A sample volunteer account. -/
def volunteerAcc : Account := ⟨"vol@example.org", false⟩

/-- A sample moderator/creator account. -/
def modAcc : Account := ⟨"mod@example.org", false⟩

/-- A sample activity requiring 3 people. -/
def vsActivity : Activity :=
  ⟨10, 1, some "Cleanup", false, false, false, 4, 70, 3, false, none, [5], ["q1", "q2"]⟩

/-- A database with two approved and one pending application on the sample
activity. -/
def vsState : DBState :=
  { emptyDB with
    activities := [vsActivity]
    applications :=
      [⟨100, "vol@example.org", 10, none, 1, none, ApplicationStatus.approved, 4⟩,
       ⟨101, "ann@example.org", 10, none, 2, none, ApplicationStatus.approved, 4⟩,
       ⟨102, "bob@example.org", 10, none, 3, none, ApplicationStatus.pending, 4⟩] }

/-- A finished, approved project owned by the sample moderator. -/
def fbProject : Project :=
  ⟨1, "Hackathon", "Org", "mod@example.org", ["mod@example.org"],
   LifetimeStage.finished, ReviewStatus.approved, none, 0⟩

/-- An hourly activity of the finished project with two feedback questions. -/
def fbActivity : Activity :=
  ⟨10, 1, some "Desk", false, false, false, 10, 70, 3, false, none, [5], ["q1", "q2"]⟩

/-- The volunteer's approved application with 10 actual hours. -/
def fbApplication : Application :=
  ⟨100, "vol@example.org", 10, none, 5, none, ApplicationStatus.approved, 10⟩

/-- A database ready for feedback submission: finished project, approved
application, no feedback yet. -/
def fbState : DBState :=
  { emptyDB with
    accounts := [adminAcc, volunteerAcc, modAcc]
    projects := [fbProject]
    activities := [fbActivity]
    applications := [fbApplication]
    nextId := 1000 }

/-- The feedback-submission database after feedback already exists on the
application. -/
def fbStateDone : DBState :=
  { fbState with feedbacks := [⟨500, 100, ["x", "y"], []⟩] }

/-- A draft project with an organizer, owned by the sample moderator. -/
def pubProject : Project :=
  ⟨1, "Hackathon", "Org", "mod@example.org", ["mod@example.org"],
   LifetimeStage.draft, ReviewStatus.unreviewed, none, 0⟩

/-- A database with the draft project and one activity with two competences. -/
def pubState : DBState :=
  { emptyDB with
    accounts := [adminAcc, modAcc]
    projects := [pubProject]
    activities := [⟨10, 1, some "Desk", false, true, false, 4, 70, 3, false, none, [5, 6], ["q1"]⟩]
    nextId := 1000 }

/-- A finalizing project pending review, with an internal moderation activity
(application id 200) and a plain activity (application id 100). -/
def revState : DBState :=
  { emptyDB with
    accounts := [adminAcc, volunteerAcc, modAcc]
    projects :=
      [⟨1, "Hackathon", "Org", "mod@example.org", ["mod@example.org"],
        LifetimeStage.finalizing, ReviewStatus.pending, none, 0⟩]
    activities :=
      [⟨10, 1, some "Desk", false, false, false, 4, 70, 3, false, none, [5], ["q1"]⟩,
       ⟨20, 1, some "[[Moderation]]", true, false, true, 1, 0, 0, false, none, [], []⟩]
    applications :=
      [⟨100, "vol@example.org", 10, none, 5, none, ApplicationStatus.approved, 4⟩,
       ⟨200, "mod@example.org", 20, none, 5, none, ApplicationStatus.approved, 1⟩]
    nextId := 1000 }

/-- A finalizing project with an approved application, ready for an
actual-hours edit. -/
def hrsState : DBState :=
  { emptyDB with
    accounts := [adminAcc, volunteerAcc, modAcc]
    projects :=
      [⟨1, "Hackathon", "Org", "mod@example.org", ["mod@example.org"],
        LifetimeStage.finalizing, ReviewStatus.unreviewed, none, 0⟩]
    activities := [⟨10, 1, some "Desk", false, false, false, 4, 70, 3, false, none, [5], ["q1"]⟩]
    applications := [⟨100, "vol@example.org", 10, none, 5, none, ApplicationStatus.approved, 4⟩]
    nextId := 1000 }

/-- A database in which the user has an application event and a purchase
event with the same `entry_time`. -/
def tlState : DBState :=
  { emptyDB with
    accounts := [volunteerAcc]
    projects :=
      [⟨1, "Hackathon", "Org", "mod@example.org", ["mod@example.org"],
        LifetimeStage.ongoing, ReviewStatus.unreviewed, none, 0⟩]
    activities := [⟨10, 1, some "Desk", false, false, false, 4, 70, 3, false, none, [5], ["q1"]⟩]
    applications := [⟨100, "vol@example.org", 10, none, 5, none, ApplicationStatus.pending, 4⟩]
    stock_changes := [⟨300, -1, 5, StockChangeStatus.carried_out, "vol@example.org", 30⟩]
    varieties := [⟨30, 40⟩]
    products := [⟨40, "Mug"⟩]
    nextId := 1000 }

/-! Section: General lemmas about the embedding -/

theorem runExcept_error (s : DBState) (e : Except Nat DBState)
    (h : isFailure e = true) : runExcept s e = s := by
  cases e with
  | error _ => rfl
  | ok _ => exact absurd h (by simp [isFailure])

theorem find?_map_of_pred_preserved {α : Type} (l : List α) (p : α → Bool)
    (f : α → α) (hp : ∀ a, p (f a) = p a) :
    (l.map f).find? p = (l.find? p).map f := by
  rw [List.find?_map]
  have hcomp : (p ∘ f) = p := funext fun a => hp a
  rw [hcomp]

/-! Section: C9: vacant spots -/

/-- C9: for every activity, `vacant_spots` equals `people_required` minus the
number of approved applications, clamped from below at `-1`: the difference is
returned whenever it is at least `-1`, the value is never below `-1`, and when
approved applications exceed `people_required` by more than one the value is
exactly `-1`. -/
theorem vacant_spots_clamped (s : DBState) (a : Activity) :
    (-1 ≤ vacant_spots s a) ∧
    (-1 ≤ a.people_required - (approvedCount s a : Int) →
      vacant_spots s a = a.people_required - (approvedCount s a : Int)) ∧
    (a.people_required - (approvedCount s a : Int) < -1 →
      vacant_spots s a = -1) := by
  refine ⟨le_max_right _ _, fun h => max_eq_left h, fun h => max_eq_right (le_of_lt h)⟩

/-- Witness for C9: an activity requiring 3 people with two approved
applications has one vacant spot, and an over-subscribed activity is clamped
at `-1`. -/
theorem vacant_spots_clamped_witness :
    vacant_spots vsState vsActivity = 1 ∧ -1 ≤ vacant_spots vsState vsActivity :=
  ⟨(vacant_spots_clamped vsState vsActivity).2.1 (by decide),
   (vacant_spots_clamped vsState vsActivity).1⟩

/-! Section: Lemmas on the application PATCH branches -/

theorem statusStep_ok_ongoing (project : Project) (activity : Activity)
    (application app1 : Application) (st : String)
    (h : statusStep project activity application (some st) = Except.ok app1) :
    project.lifetime_stage = LifetimeStage.ongoing := by
  by_contra hne
  simp only [statusStep] at h
  rw [if_pos hne] at h
  cases h

theorem hoursStep_not_finalizing (project : Project) (activity : Activity)
    (application : Application) (hours : Int)
    (h : project.lifetime_stage ≠ LifetimeStage.finalizing) :
    hoursStep project activity application (some hours) = Except.error 400 := by
  simp only [hoursStep]
  rw [if_pos h]

theorem hoursStep_ok_inv (project : Project) (activity : Activity)
    (application : Application) (hours : Int) (app2 : Application)
    (h : hoursStep project activity application (some hours) = Except.ok app2) :
    app2 = { application with actual_hours := hours } ∧
    project.lifetime_stage = LifetimeStage.finalizing ∧
    0 ≤ hours ∧
    (activity.fixed_reward = true → hours = 0 ∨ hours = 1) ∧
    application.status = ApplicationStatus.approved := by
  simp only [hoursStep] at h
  by_cases h1 : project.lifetime_stage ≠ LifetimeStage.finalizing
  · rw [if_pos h1] at h; cases h
  rw [if_neg h1] at h
  by_cases h2 : hours < 0
  · rw [if_pos h2] at h; cases h
  rw [if_neg h2] at h
  by_cases h3 : activity.fixed_reward = true ∧ ¬(hours = 0 ∨ hours = 1)
  · rw [if_pos h3] at h; cases h
  rw [if_neg h3] at h
  by_cases h4 : application.status ≠ ApplicationStatus.approved
  · rw [if_pos h4] at h; cases h
  rw [if_neg h4] at h
  refine ⟨(Except.ok.inj h).symm, not_not.mp h1, not_lt.mp h2, ?_, not_not.mp h4⟩
  intro hf
  by_contra hor
  exact h3 ⟨hf, hor⟩

theorem hoursStep_ok_of (project : Project) (activity : Activity)
    (application : Application) (hours : Int)
    (h1 : project.lifetime_stage = LifetimeStage.finalizing)
    (h2 : 0 ≤ hours)
    (h3 : activity.fixed_reward = true → hours = 0 ∨ hours = 1)
    (h4 : application.status = ApplicationStatus.approved) :
    hoursStep project activity application (some hours) =
      Except.ok { application with actual_hours := hours } := by
  simp only [hoursStep]
  rw [if_neg (not_not_intro h1), if_neg (not_lt.mpr h2),
    if_neg (fun hc => hc.2 (h3 hc.1)), if_neg (not_not_intro h4)]

/-! Section: C10: simultaneous status and actual-hours edits -/

/-- C10: an application PATCH that supplies both a status and an actual-hours
value always aborts — the status branch requires an ongoing project while the
actual-hours branch requires a finalizing one — and the stored application is
unchanged. -/
theorem edit_application_both_fields_fails (s : DBState) (caller : Account)
    (project_id activity_id application_id : Nat) (st : String) (hours : Int)
    (now : Int) :
    isFailure (edit_application s caller project_id activity_id application_id
      (some st) (some hours) now) = true ∧
    runExcept s (edit_application s caller project_id activity_id application_id
      (some st) (some hours) now) = s := by
  have key : isFailure (edit_application s caller project_id activity_id
      application_id (some st) (some hours) now) = true := by
    unfold edit_application
    cases findApplication s application_id with
    | none => rfl
    | some application =>
    cases findActivity s activity_id with
    | none => rfl
    | some activity =>
    cases findProject s project_id with
    | none => rfl
    | some project =>
    dsimp only
    split
    · rfl
    split
    · rfl
    cases hss : statusStep project activity application (some st) with
    | error e => rfl
    | ok app1 =>
      dsimp only
      rw [hoursStep_not_finalizing project activity app1 hours
        (by rw [statusStep_ok_ongoing project activity application app1 st hss]; simp)]
      rfl
  exact ⟨key, runExcept_error s _ key⟩

/-! Section: C4: the actual-hours guard -/

theorem edit_application_hours_reduce (s : DBState) (caller : Account)
    (project_id activity_id application_id : Nat) (hours : Int) (now : Int)
    (application : Application) (activity : Activity) (project : Project)
    (hfa : findApplication s application_id = some application)
    (hba : findActivity s activity_id = some activity)
    (hfp : findProject s project_id = some project)
    (hrel : activity.project_id = project_id ∧ application.activity_id = activity.id)
    (hauth : project.moderators.contains caller.email = true ∨ caller.is_admin = true) :
    edit_application s caller project_id activity_id application_id
        none (some hours) now =
      match hoursStep project activity application (some hours) with
      | Except.error e => Except.error e
      | Except.ok app2 =>
        Except.ok { s with applications := s.applications.map (fun a =>
          if a.id == application_id then app2 else a) } := by
  unfold edit_application
  rw [hfa, hba, hfp]
  dsimp only
  rw [if_neg (not_or.mpr ⟨not_not_intro hrel.1, not_not_intro hrel.2⟩),
    if_neg (fun hc => hauth.elim (fun h => hc.1 h) (fun h => hc.2 h))]
  have hnone : statusStep project activity application none = Except.ok application := rfl
  rw [hnone]
  dsimp only
  cases hh : hoursStep project activity application (some hours) with
  | error e => rfl
  | ok app2 =>
    dsimp only
    have hstatus : ¬(app2.status ≠ application.status) := by
      rw [(hoursStep_ok_inv project activity application hours app2 hh).1]
      exact fun hne => hne rfl
    rw [if_neg hstatus]

/-- C4: with the application, activity and project found, related and the
caller a moderator or admin, an actual-hours edit succeeds exactly when the
project is finalizing, the application is approved, the supplied hours are a
non-negative integer and, on fixed-reward activities, 0 or 1; on success the
stored value becomes the supplied hours, and in every failing case the
request aborts with the stored value unchanged. -/
theorem set_actual_hours_guarded (s : DBState) (caller : Account)
    (project_id activity_id application_id : Nat) (hours : Int) (now : Int)
    (application : Application) (activity : Activity) (project : Project)
    (hfa : findApplication s application_id = some application)
    (hba : findActivity s activity_id = some activity)
    (hfp : findProject s project_id = some project)
    (hrel : activity.project_id = project_id ∧ application.activity_id = activity.id)
    (hauth : project.moderators.contains caller.email = true ∨ caller.is_admin = true) :
    ((∃ s', edit_application s caller project_id activity_id application_id
        none (some hours) now = Except.ok s') ↔
      (project.lifetime_stage = LifetimeStage.finalizing ∧
       application.status = ApplicationStatus.approved ∧
       0 ≤ hours ∧
       (activity.fixed_reward = true → hours = 0 ∨ hours = 1))) ∧
    (∀ s', edit_application s caller project_id activity_id application_id
        none (some hours) now = Except.ok s' →
      findApplication s' application_id =
        some { application with actual_hours := hours }) ∧
    (isFailure (edit_application s caller project_id activity_id application_id
        none (some hours) now) = true →
      runExcept s (edit_application s caller project_id activity_id application_id
        none (some hours) now) = s) := by
  have hred := edit_application_hours_reduce s caller project_id activity_id
    application_id hours now application activity project hfa hba hfp hrel hauth
  have happid : (application.id == application_id) = true := by
    have hfa' := hfa
    unfold findApplication at hfa'
    have hmem := List.find?_some hfa'
    exact hmem
  refine ⟨⟨?_, ?_⟩, ?_, fun h => runExcept_error s _ h⟩
  · rintro ⟨s', hs'⟩
    rw [hred] at hs'
    cases hh : hoursStep project activity application (some hours) with
    | error e => rw [hh] at hs'; cases hs'
    | ok app2 =>
      obtain ⟨-, h1, h2, h3, h4⟩ := hoursStep_ok_inv project activity application hours app2 hh
      exact ⟨h1, h4, h2, h3⟩
  · rintro ⟨h1, h2, h3, h4⟩
    rw [hred, hoursStep_ok_of project activity application hours h1 h3 h4 h2]
    exact ⟨_, rfl⟩
  · intro s' hs'
    rw [hred] at hs'
    cases hh : hoursStep project activity application (some hours) with
    | error e => rw [hh] at hs'; cases hs'
    | ok app2 =>
      rw [hh] at hs'
      dsimp only at hs'
      obtain ⟨happ2, -⟩ := hoursStep_ok_inv project activity application hours app2 hh
      have hs'' := (Except.ok.inj hs').symm
      subst hs''
      have hp : ∀ a : Application,
          ((fun a : Application => a.id == application_id)
            ((fun a : Application =>
              if a.id == application_id then app2 else a) a)) =
          ((fun a : Application => a.id == application_id) a) := by
        intro a
        dsimp only
        by_cases hid : (a.id == application_id) = true
        · rw [if_pos hid, happ2]
          dsimp only
          rw [happid, hid]
        · rw [if_neg hid]
      unfold findApplication
      dsimp only
      rw [find?_map_of_pred_preserved s.applications (fun a => a.id == application_id)
        (fun a => if a.id == application_id then app2 else a) hp]
      unfold findApplication at hfa
      rw [hfa]
      dsimp only [Option.map]
      rw [if_pos happid, happ2]

/-- Witness for C4: on a finalizing project with an approved application, a
moderator setting 7 actual hours succeeds and stores 7. -/
theorem set_actual_hours_guarded_witness :
    (∃ s', edit_application hrsState modAcc 1 10 100 none (some 7) 0 = Except.ok s' ∧
      findApplication s' 100 =
        some ⟨100, "vol@example.org", 10, none, 5, none, ApplicationStatus.approved, 7⟩) := by
  have h := set_actual_hours_guarded hrsState modAcc 1 10 100 7 0
    ⟨100, "vol@example.org", 10, none, 5, none, ApplicationStatus.approved, 4⟩
    ⟨10, 1, some "Desk", false, false, false, 4, 70, 3, false, none, [5], ["q1"]⟩
    ⟨1, "Hackathon", "Org", "mod@example.org", ["mod@example.org"],
      LifetimeStage.finalizing, ReviewStatus.unreviewed, none, 0⟩
    (by decide) (by decide) (by decide) (by decide) (Or.inl (by decide))
  obtain ⟨s', hs'⟩ := h.1.mpr ⟨rfl, rfl, by decide, fun hf => absurd hf (by decide)⟩
  exact ⟨s', hs', h.2.1 s' hs'⟩

/-! Section: Lemmas on feedback submission -/

set_option maxHeartbeats 1600000 in
theorem leave_feedback_ok_inv (s : DBState) (caller : Account)
    (project_id activity_id application_id : Nat) (answers : List String)
    (now : Int) (s' : DBState)
    (h : leave_feedback s caller project_id activity_id application_id
      answers now = Except.ok s') :
    hasFeedback s application_id = false ∧
    s'.projects = s.projects ∧
    s'.applications = s.applications ∧
    s'.feedbacks = s.feedbacks ++ [⟨s.nextId, application_id, answers, []⟩] ∧
    ∃ c : Int, s'.transactions = s.transactions ++
      [⟨s.nextId + 1, caller.email, c, none, some s.nextId⟩] := by
  unfold leave_feedback at h
  split at h
  · cases h
  split at h
  · cases h
  split at h
  · cases h
  split at h
  · cases h
  split at h
  · cases h
  split at h
  · cases h
  next hfb =>
  split at h
  · cases h
  split at h
  · cases h
  split at h
  · cases h
  split at h
  · cases h
  dsimp only at h
  split at h
  case isTrue =>
    split at h
    · obtain hX := (Except.ok.inj h).symm
      subst hX
      exact ⟨Bool.eq_false_iff.mpr hfb, rfl, rfl, rfl, _, rfl⟩
    · obtain hX := (Except.ok.inj h).symm
      subst hX
      exact ⟨Bool.eq_false_iff.mpr hfb, rfl, rfl, rfl, _, rfl⟩
  case isFalse => cases h

/-! Section: C1: feedback submission is atomic and rewards exactly once -/

/-- C1: with the application, activity and project found, related, the caller
the application's owner, and at most one matching pending claim notification
(an invariant of reachable states, since an approved review fires at most one
such notification per application), a feedback submission with the
application approved, the project finished, no feedback existing and the
right number of answers succeeds and persists, in one commit, the new
feedback row and exactly one new transaction attributed to the applicant
whose change is `actual_hours * reward_rate` and whose feedback link is the
new feedback's key; if any of these preconditions fails the request aborts
and neither a feedback nor a transaction is created. -/
theorem leave_feedback_atomic (s : DBState) (caller : Account)
    (project_id activity_id application_id : Nat) (answers : List String)
    (now : Int) (application : Application) (activity : Activity) (project : Project)
    (hfa : findApplication s application_id = some application)
    (hba : findActivity s activity_id = some activity)
    (hfp : findProject s project_id = some project)
    (hrel : activity.project_id = project_id ∧ application.activity_id = activity.id)
    (howner : application.applicant_email = caller.email)
    (hclaim : (claimMatches s caller.email application_id).length ≤ 1) :
    (application.status = ApplicationStatus.approved →
     project.lifetime_stage = LifetimeStage.finished →
     hasFeedback s application_id = false →
     answers.length = activity.feedback_questions.length →
     ∃ s', leave_feedback s caller project_id activity_id application_id
         answers now = Except.ok s' ∧
       s'.feedbacks = s.feedbacks ++ [⟨s.nextId, application_id, answers, []⟩] ∧
       s'.transactions = s.transactions ++
         [⟨s.nextId + 1, caller.email,
           application.actual_hours * activity.reward_rate, none, some s.nextId⟩]) ∧
    (¬(application.status = ApplicationStatus.approved ∧
       project.lifetime_stage = LifetimeStage.finished ∧
       hasFeedback s application_id = false ∧
       answers.length = activity.feedback_questions.length) →
     isFailure (leave_feedback s caller project_id activity_id application_id
       answers now) = true ∧
     runExcept s (leave_feedback s caller project_id activity_id application_id
       answers now) = s) := by
  have hrelneg : ¬(activity.project_id ≠ project_id ∨ application.activity_id ≠ activity.id) :=
    not_or.mpr ⟨not_not_intro hrel.1, not_not_intro hrel.2⟩
  constructor
  · intro h1 h2 h3 h4
    unfold leave_feedback
    rw [hfa, hba, hfp]
    dsimp only
    rw [if_neg hrelneg, if_neg (not_not_intro howner),
      if_neg (by rw [h3]; exact fun hc => Bool.false_ne_true hc),
      if_neg (not_not_intro h1), if_neg (not_not_intro h2),
      if_neg (not_not_intro h4), if_neg (by omega)]
    have hck : transactionCheck
        ⟨s.nextId + 1, caller.email,
          application.actual_hours * activity.reward_rate, none, some s.nextId⟩ = true := rfl
    rw [if_pos hck]
    split
    · exact ⟨_, rfl, rfl, rfl⟩
    · exact ⟨_, rfl, rfl, rfl⟩
  · intro hnall
    unfold leave_feedback
    rw [hfa, hba, hfp]
    dsimp only
    rw [if_neg hrelneg, if_neg (not_not_intro howner)]
    by_cases hfb : hasFeedback s application_id = true
    · rw [if_pos hfb]; exact ⟨rfl, rfl⟩
    rw [if_neg hfb]
    by_cases hst : application.status ≠ ApplicationStatus.approved
    · rw [if_pos hst]; exact ⟨rfl, rfl⟩
    rw [if_neg hst]
    by_cases hlf : project.lifetime_stage ≠ LifetimeStage.finished
    · rw [if_pos hlf]; exact ⟨rfl, rfl⟩
    rw [if_neg hlf]
    by_cases hlen : answers.length ≠ activity.feedback_questions.length
    · rw [if_pos hlen]; exact ⟨rfl, rfl⟩
    exact absurd ⟨not_not.mp hst, not_not.mp hlf, Bool.eq_false_iff.mpr hfb,
      not_not.mp hlen⟩ hnall

/-- Witness for C1: the sample volunteer on the finished sample project
submits two answers and gets exactly one 700-point transaction linked to the
new feedback. -/
theorem leave_feedback_atomic_witness :
    ∃ s', leave_feedback fbState volunteerAcc 1 10 100 ["a", "b"] 50 = Except.ok s' ∧
      s'.feedbacks = fbState.feedbacks ++ [⟨1000, 100, ["a", "b"], []⟩] ∧
      s'.transactions = fbState.transactions ++
        [⟨1001, "vol@example.org", 10 * 70, none, some 1000⟩] := by
  have h := leave_feedback_atomic fbState volunteerAcc 1 10 100 ["a", "b"] 50
    fbApplication fbActivity fbProject rfl rfl rfl ⟨rfl, rfl⟩ rfl (by decide)
  exact h.1 rfl rfl (by decide) rfl

/-! Section: C2: feedback is accepted at most once per application -/

/-- C2: a second feedback submission on an application that already has
feedback always aborts with the conflict error (for the owner with related
ids the very first existence check rejects it, before any other guard), and
feedback submission preserves the ledger invariant that at most one
transaction is linked to any application via its feedback (assuming the
store's fresh-key discipline). -/
theorem leave_feedback_once (s : DBState) (caller : Account)
    (project_id activity_id application_id : Nat) (answers : List String)
    (now : Int) :
    (∀ application activity project,
      findApplication s application_id = some application →
      findActivity s activity_id = some activity →
      findProject s project_id = some project →
      activity.project_id = project_id ∧ application.activity_id = activity.id →
      application.applicant_email = caller.email →
      hasFeedback s application_id = true →
      leave_feedback s caller project_id activity_id application_id answers now =
        Except.error 400) ∧
    (∀ s', FreshIds s → (∀ i, linkedCount s i ≤ 1) →
      leave_feedback s caller project_id activity_id application_id answers now =
        Except.ok s' →
      ∀ i, linkedCount s' i ≤ 1) := by
  constructor
  · intro application activity project hfa hba hfp hrel howner hfb
    unfold leave_feedback
    rw [hfa, hba, hfp]
    dsimp only
    rw [if_neg (not_or.mpr ⟨not_not_intro hrel.1, not_not_intro hrel.2⟩),
      if_neg (not_not_intro howner), if_pos hfb]
  · intro s' hfresh hinv hok i
    obtain ⟨hfb0, -, -, hfeed, c, htx⟩ := leave_feedback_ok_inv s caller project_id
      activity_id application_id answers now s' hok
    unfold linkedCount
    rw [htx, List.countP_append]
    have hold : List.countP (linkedToApp s' i) s.transactions =
        List.countP (linkedToApp s i) s.transactions := by
      apply List.countP_congr
      intro t ht
      have heq : linkedToApp s' i t = linkedToApp s i t := by
        unfold linkedToApp
        cases hfid : t.feedback_id with
        | none => rfl
        | some fid =>
          dsimp only
          rw [hfeed, List.any_append]
          have hlt : fid < s.nextId := hfresh.2 t ht fid hfid
          have hsingle : List.any [(⟨s.nextId, application_id, answers, []⟩ : Feedback)]
              (fun f => f.id == fid && f.application_id == i) = false := by
            simp only [List.any_cons, List.any_nil, Bool.or_false]
            show (s.nextId == fid && (application_id == i)) = false
            have hne : (s.nextId == fid) = false := by
              rw [beq_eq_false_iff_ne]
              omega
            rw [hne, Bool.false_and]
          rw [hsingle, Bool.or_false]
      rw [heq]
    by_cases hi : i = application_id
    · rw [hi] at hold ⊢
      rw [hold]
      have hzero : List.countP (linkedToApp s application_id) s.transactions = 0 := by
        rw [List.countP_eq_zero]
        intro t ht hlink
        unfold linkedToApp at hlink
        cases hfid : t.feedback_id with
        | none => rw [hfid] at hlink; cases hlink
        | some fid =>
          rw [hfid] at hlink
          dsimp only at hlink
          obtain ⟨f, hfmem, hpf⟩ := List.any_eq_true.mp hlink
          rw [Bool.and_eq_true] at hpf
          have h2 := hpf.2
          have hcontra : hasFeedback s application_id = true := by
            unfold hasFeedback
            exact List.any_eq_true.mpr ⟨f, hfmem, h2⟩
          rw [hfb0] at hcontra
          cases hcontra
      rw [hzero]
      have hle := List.countP_le_length (p := linkedToApp s' application_id)
        (l := [(⟨s.nextId + 1, caller.email, c, none, some s.nextId⟩ : Transaction)])
      simp only [List.length_singleton] at hle
      omega
    · have hnew : List.countP (linkedToApp s' i)
          [(⟨s.nextId + 1, caller.email, c, none, some s.nextId⟩ : Transaction)] = 0 := by
        rw [List.countP_eq_zero]
        intro t ht
        rw [List.mem_singleton] at ht
        subst ht
        unfold linkedToApp
        dsimp only
        intro hlink
        rw [hfeed, List.any_append, Bool.or_eq_true] at hlink
        rcases hlink with hcase | hcase
        · obtain ⟨f, hfmem, hpf⟩ := List.any_eq_true.mp hcase
          rw [Bool.and_eq_true] at hpf
          have hfid : f.id = s.nextId := beq_iff_eq.mp hpf.1
          have hlt := hfresh.1 f hfmem
          omega
        · obtain ⟨f, hfmem, hpf⟩ := List.any_eq_true.mp hcase
          rw [List.mem_singleton] at hfmem
          subst hfmem
          rw [Bool.and_eq_true] at hpf
          exact hi (beq_iff_eq.mp hpf.2).symm
      rw [hold, hnew]
      have hbase := hinv i
      unfold linkedCount at hbase
      omega

/-- Witness for C2: a second submission on the sample application with
existing feedback aborts with the conflict error, and after a successful
first submission every application is linked to at most one transaction. -/
theorem leave_feedback_once_witness :
    leave_feedback fbStateDone volunteerAcc 1 10 100 ["a", "b"] 50 = Except.error 400 ∧
    ∀ i, linkedCount (runExcept fbState
      (leave_feedback fbState volunteerAcc 1 10 100 ["a", "b"] 50)) i ≤ 1 := by
  constructor
  · exact (leave_feedback_once fbStateDone volunteerAcc 1 10 100 ["a", "b"] 50).1
      fbApplication fbActivity fbProject rfl rfl rfl ⟨rfl, rfl⟩ rfl (by decide)
  · exact (leave_feedback_once fbState volunteerAcc 1 10 100 ["a", "b"] 50).2
      (runExcept fbState (leave_feedback fbState volunteerAcc 1 10 100 ["a", "b"] 50))
      ⟨fun f hf => absurd hf (List.not_mem_nil f),
       fun t ht => absurd ht (List.not_mem_nil t)⟩
      (fun _ => Nat.zero_le 1) rfl

/-! Section: Per-operation inversion lemmas -/

theorem insertTransaction_ok_inv (s : DBState) (t : Transaction) (s' : DBState)
    (h : insertTransaction s t = Except.ok s') :
    s'.transactions = s.transactions ++ [t] ∧ transactionCheck t = true ∧
    s'.projects = s.projects := by
  unfold insertTransaction at h
  split at h
  case isTrue hck =>
    obtain hX := (Except.ok.inj h).symm
    subst hX
    exact ⟨rfl, hck, rfl⟩
  case isFalse => cases h

theorem edit_application_ok_inv (s : DBState) (caller : Account)
    (project_id activity_id application_id : Nat) (statusIn : Option String)
    (hoursIn : Option Int) (now : Int) (s' : DBState)
    (h : edit_application s caller project_id activity_id application_id
      statusIn hoursIn now = Except.ok s') :
    s'.transactions = s.transactions ∧ s'.projects = s.projects := by
  unfold edit_application at h
  split at h
  · cases h
  split at h
  · cases h
  split at h
  · cases h
  split at h
  · cases h
  split at h
  · cases h
  split at h
  · cases h
  split at h
  · cases h
  split at h
  · obtain hX := (Except.ok.inj h).symm
    subst hX
    exact ⟨rfl, rfl⟩
  · obtain hX := (Except.ok.inj h).symm
    subst hX
    exact ⟨rfl, rfl⟩

theorem publish_project_ok_inv (s : DBState) (caller : Account)
    (project_id : Nat) (now : Int) (s' : DBState)
    (h : publish_project s caller project_id now = Except.ok s') :
    ∃ project, findProject s project_id = some project ∧
      project.lifetime_stage = LifetimeStage.draft ∧
      s'.projects = s.projects.map (fun q =>
        if q.id == project_id then { q with lifetime_stage := LifetimeStage.ongoing }
        else q) ∧
      s'.transactions = s.transactions := by
  unfold publish_project at h
  split at h
  · cases h
  next project hfp =>
  split at h
  · cases h
  next hstage =>
  split at h
  · cases h
  split at h
  · cases h
  split at h
  · cases h
  split at h
  · cases h
  obtain hX := (Except.ok.inj h).symm
  subst hX
  exact ⟨project, hfp, not_not.mp hstage, rfl, rfl⟩

theorem request_review_ok_inv (s : DBState) (caller : Account)
    (project_id : Nat) (now : Int) (s' : DBState)
    (h : request_review s caller project_id now = Except.ok s') :
    s'.projects = s.projects.map (fun q =>
      if q.id == project_id then { q with review_status := ReviewStatus.pending }
      else q) ∧
    s'.transactions = s.transactions := by
  unfold request_review at h
  split at h
  · cases h
  split at h
  · cases h
  split at h
  · cases h
  split at h
  · cases h
  split at h
  · cases h
  obtain hX := (Except.ok.inj h).symm
  subst hX
  exact ⟨rfl, rfl⟩

theorem review_project_ok_inv (s : DBState) (caller : Account)
    (project_id : Nat) (decision : String) (admin_feedback : Option String)
    (now : Int) (s' : DBState)
    (h : review_project s caller project_id decision admin_feedback now =
      Except.ok s') :
    ∃ project rs, findProject s project_id = some project ∧
      project.lifetime_stage = LifetimeStage.finalizing ∧
      s'.projects = s.projects.map (fun q =>
        if q.id == project_id then
          { project with
            review_status := rs
            lifetime_stage :=
              if rs = ReviewStatus.approved then LifetimeStage.finished
              else project.lifetime_stage
            admin_feedback :=
              match admin_feedback with
              | some t => some t
              | none => project.admin_feedback }
        else q) ∧
      s'.transactions = s.transactions := by
  unfold review_project at h
  split at h
  · cases h
  next project hfp =>
  split at h
  · cases h
  next hstage =>
  split at h
  · cases h
  split at h
  · cases h
  split at h
  · cases h
  next rs hrs =>
  dsimp only at h
  obtain hX := (Except.ok.inj h).symm
  subst hX
  refine ⟨project, rs, hfp, not_not.mp hstage, ?_, rfl⟩
  cases admin_feedback <;> rfl

theorem edit_project_ok_inv (s : DBState) (caller : Account) (project_id : Nat)
    (nameIn organizerIn : Option String) (moderatorsIn : Option (List String))
    (s' : DBState)
    (h : edit_project s caller project_id nameIn organizerIn moderatorsIn =
      Except.ok s') :
    s'.projects = s.projects.map (fun q =>
      if q.id == project_id then
        { q with
          name := nameIn.getD q.name
          organizer := organizerIn.getD q.organizer
          moderators := moderatorsIn.getD q.moderators }
      else q) ∧
    s'.transactions = s.transactions := by
  unfold edit_project at h
  split at h
  · cases h
  split at h
  · cases h
  split at h
  · cases h
  obtain hX := (Except.ok.inj h).symm
  subst hX
  exact ⟨rfl, rfl⟩

theorem change_balance_ok_inv (s : DBState) (email : String) (change : Int)
    (now : Int) (s' : DBState)
    (h : change_balance s email change now = Except.ok s') :
    (s'.transactions = s.transactions ∧ s'.projects = s.projects) ∨
    (∃ t, s'.transactions = s.transactions ++ [t] ∧ transactionCheck t = true ∧
      s'.projects = s.projects) := by
  unfold change_balance at h
  split at h
  · cases h
  split at h
  case isTrue =>
    split at h
    · cases h
    next s1 hins =>
      obtain hX := (Except.ok.inj h).symm
      subst hX
      obtain ⟨htx, hck, hpr⟩ := insertTransaction_ok_inv s _ s1 hins
      exact Or.inr ⟨_, htx, hck, hpr⟩
  case isFalse =>
    obtain hX := (Except.ok.inj h).symm
    subst hX
    exact Or.inl ⟨rfl, rfl⟩

theorem reclaim_innopoints_ok_inv (s : DBState) (caller : Account)
    (points : Int) (s' : DBState)
    (h : reclaim_innopoints s caller points = Except.ok s') :
    (s'.transactions = s.transactions ∧ s'.projects = s.projects) ∨
    (∃ t, s'.transactions = s.transactions ++ [t] ∧ transactionCheck t = true ∧
      s'.projects = s.projects) := by
  unfold reclaim_innopoints at h
  split at h
  case isTrue =>
    obtain ⟨htx, hck, hpr⟩ := insertTransaction_ok_inv s _ s' h
    exact Or.inr ⟨_, htx, hck, hpr⟩
  case isFalse =>
    obtain hX := (Except.ok.inj h).symm
    subst hX
    exact Or.inl ⟨rfl, rfl⟩

/-! Section: C3: the ledger's mutual-exclusion invariant -/

theorem applyOp_transactions (op : CoreOp) (s s' : DBState)
    (h : applyOp op s = Except.ok s') :
    s'.transactions = s.transactions ∨
    ∃ t, s'.transactions = s.transactions ++ [t] ∧ transactionCheck t = true := by
  cases op with
  | leaveFeedback caller pid aid apid answers now =>
    obtain ⟨-, -, -, -, c, htx⟩ :=
      leave_feedback_ok_inv s caller pid aid apid answers now s' h
    exact Or.inr ⟨_, htx, rfl⟩
  | editApplication caller pid aid apid statusIn hoursIn now =>
    exact Or.inl (edit_application_ok_inv s caller pid aid apid statusIn
      hoursIn now s' h).1
  | publishProject caller pid now =>
    obtain ⟨-, -, -, -, htx⟩ := publish_project_ok_inv s caller pid now s' h
    exact Or.inl htx
  | requestReview caller pid now =>
    exact Or.inl (request_review_ok_inv s caller pid now s' h).2
  | reviewProject caller pid decision fb now =>
    obtain ⟨-, -, -, -, -, htx⟩ :=
      review_project_ok_inv s caller pid decision fb now s' h
    exact Or.inl htx
  | editProject caller pid nameIn organizerIn moderatorsIn =>
    exact Or.inl (edit_project_ok_inv s caller pid nameIn organizerIn
      moderatorsIn s' h).2
  | changeBalance email change now =>
    rcases change_balance_ok_inv s email change now s' h with ⟨htx, -⟩ | ⟨t, htx, hck, -⟩
    · exact Or.inl htx
    · exact Or.inr ⟨t, htx, hck⟩
  | reclaimInnopoints caller points =>
    rcases reclaim_innopoints_ok_inv s caller points s' h with ⟨htx, -⟩ | ⟨t, htx, hck, -⟩
    · exact Or.inl htx
    · exact Or.inr ⟨t, htx, hck⟩

/-- C3: every transaction the store accepts satisfies the check constraint
tying it to exactly one of a stock change or a feedback row, and every
modelled core operation preserves this invariant of the persisted ledger
(the balance-change and reclaim endpoints build a transaction with neither
link, which the constraint rejects at commit, so no violating row is ever
persisted). -/
theorem transactions_mutual_exclusion (op : CoreOp) (s s' : DBState)
    (hinv : TxnXorOk s) (h : applyOp op s = Except.ok s') : TxnXorOk s' := by
  rcases applyOp_transactions op s s' h with htx | ⟨t, htx, hck⟩
  · intro u hu
    rw [htx] at hu
    exact hinv u hu
  · intro u hu
    rw [htx] at hu
    rcases List.mem_append.mp hu with hmem | hmem
    · exact hinv u hmem
    · rw [List.mem_singleton] at hmem
      subst hmem
      exact hck

/-- Witness for C3: submitting the sample feedback on an empty ledger leaves
every persisted transaction with exactly one link. -/
theorem transactions_mutual_exclusion_witness :
    TxnXorOk (runExcept fbState (applyOp
      (CoreOp.leaveFeedback volunteerAcc 1 10 100 ["a", "b"] 50) fbState)) :=
  transactions_mutual_exclusion
    (CoreOp.leaveFeedback volunteerAcc 1 10 100 ["a", "b"] 50) fbState _
    (fun t ht => absurd ht (List.not_mem_nil t)) rfl

/-! Section: C8: the project stage only moves forward -/

theorem nodup_mem_eq (s : DBState) (hnd : ProjectIdsNodup s)
    (p q : Project) (hp : p ∈ s.projects) (hq : q ∈ s.projects)
    (hid : p.id = q.id) : p = q :=
  List.inj_on_of_nodup_map hnd hp hq hid

theorem stageMono_refl (s : DBState) (hnd : ProjectIdsNodup s) : StageMono s s := by
  intro p hp p' hp' hid
  rw [nodup_mem_eq s hnd p p' hp hp' hid]

theorem applyOp_projects (op : CoreOp) (s s' : DBState)
    (h : applyOp op s = Except.ok s') :
    s'.projects = s.projects ∨
    ∃ f : Project → Project, s'.projects = s.projects.map f ∧
      (∀ q, (f q).id = q.id) ∧
      (ProjectIdsNodup s → ∀ q ∈ s.projects,
        stageRank q.lifetime_stage ≤ stageRank (f q).lifetime_stage) := by
  cases op with
  | leaveFeedback caller pid aid apid answers now =>
    obtain ⟨-, hpr, -, -, -⟩ :=
      leave_feedback_ok_inv s caller pid aid apid answers now s' h
    exact Or.inl hpr
  | editApplication caller pid aid apid statusIn hoursIn now =>
    exact Or.inl (edit_application_ok_inv s caller pid aid apid statusIn
      hoursIn now s' h).2
  | publishProject caller pid now =>
    obtain ⟨project, hfp, hdraft, hpr, -⟩ := publish_project_ok_inv s caller pid now s' h
    refine Or.inr ⟨_, hpr, fun q => ?_, fun hnd q hq => ?_⟩
    · by_cases hid : (q.id == pid) = true
      · rw [if_pos hid]
      · rw [if_neg hid]
    · by_cases hid : (q.id == pid) = true
      · have hpmem : project ∈ s.projects := by
          have hfp' := hfp
          unfold findProject at hfp'
          exact List.mem_of_find?_eq_some hfp'
        have hpid : (project.id == pid) = true := by
          have hfp' := hfp
          unfold findProject at hfp'
          have hpred := List.find?_some hfp'
          exact hpred
        have hqp : q = project :=
          nodup_mem_eq s hnd q project hq hpmem
            ((beq_iff_eq.mp hid).trans (beq_iff_eq.mp hpid).symm)
        rw [if_pos hid, hqp, hdraft]
        exact Nat.zero_le _
      · rw [if_neg hid]
  | requestReview caller pid now =>
    obtain ⟨hpr, -⟩ := request_review_ok_inv s caller pid now s' h
    refine Or.inr ⟨_, hpr, fun q => ?_, fun hnd q hq => ?_⟩
    · by_cases hid : (q.id == pid) = true
      · rw [if_pos hid]
      · rw [if_neg hid]
    · by_cases hid : (q.id == pid) = true
      · rw [if_pos hid]
      · rw [if_neg hid]
  | reviewProject caller pid decision fb now =>
    obtain ⟨project, rs, hfp, hfin, hpr, -⟩ :=
      review_project_ok_inv s caller pid decision fb now s' h
    have hpmem : project ∈ s.projects := by
      have hfp' := hfp
      unfold findProject at hfp'
      exact List.mem_of_find?_eq_some hfp'
    have hpid : (project.id == pid) = true := by
      have hfp' := hfp
      unfold findProject at hfp'
      have hpred := List.find?_some hfp'
      exact hpred
    refine Or.inr ⟨_, hpr, fun q => ?_, fun hnd q hq => ?_⟩
    · by_cases hid : (q.id == pid) = true
      · rw [if_pos hid]
        show project.id = q.id
        rw [beq_iff_eq.mp hpid, beq_iff_eq.mp hid]
      · rw [if_neg hid]
    · by_cases hid : (q.id == pid) = true
      · have hqp : q = project :=
          nodup_mem_eq s hnd q project hq hpmem
            ((beq_iff_eq.mp hid).trans (beq_iff_eq.mp hpid).symm)
        rw [if_pos hid, hqp]
        dsimp only
        by_cases hrs : rs = ReviewStatus.approved
        · rw [if_pos hrs, hfin]
          decide
        · rw [if_neg hrs]
      · rw [if_neg hid]
  | editProject caller pid nameIn organizerIn moderatorsIn =>
    obtain ⟨hpr, -⟩ := edit_project_ok_inv s caller pid nameIn organizerIn
      moderatorsIn s' h
    refine Or.inr ⟨_, hpr, fun q => ?_, fun hnd q hq => ?_⟩
    · by_cases hid : (q.id == pid) = true
      · rw [if_pos hid]
      · rw [if_neg hid]
    · by_cases hid : (q.id == pid) = true
      · rw [if_pos hid]
      · rw [if_neg hid]
  | changeBalance email change now =>
    rcases change_balance_ok_inv s email change now s' h with ⟨-, hpr⟩ | ⟨t, -, -, hpr⟩
    · exact Or.inl hpr
    · exact Or.inl hpr
  | reclaimInnopoints caller points =>
    rcases reclaim_innopoints_ok_inv s caller points s' h with ⟨-, hpr⟩ | ⟨t, -, -, hpr⟩
    · exact Or.inl hpr
    · exact Or.inl hpr

theorem step_mono (op : CoreOp) (s : DBState) (hnd : ProjectIdsNodup s) :
    ProjectIdsEq s (runExcept s (applyOp op s)) ∧
    StageMono s (runExcept s (applyOp op s)) := by
  cases happ : applyOp op s with
  | error e =>
    have hre : runExcept s (Except.error e) = s := rfl
    rw [hre]
    exact ⟨rfl, stageMono_refl s hnd⟩
  | ok s' =>
    have hre : runExcept s (Except.ok s') = s' := rfl
    rw [hre]
    rcases applyOp_projects op s s' happ with hsame | ⟨f, hmap, hid, hrank⟩
    · constructor
      · show s'.projects.map (fun p => p.id) = s.projects.map (fun p => p.id)
        rw [hsame]
      · intro p hp p' hp' hpid
        show stageRank p.lifetime_stage ≤ stageRank p'.lifetime_stage
        have hp'' : p' ∈ s.projects := by rw [hsame] at hp'; exact hp'
        rw [nodup_mem_eq s hnd p p' hp hp'' hpid]
    · constructor
      · show s'.projects.map (fun p => p.id) = s.projects.map (fun p => p.id)
        rw [hmap, List.map_map]
        congr 1
        funext q
        exact hid q
      · intro p hp p' hp' hpid
        show stageRank p.lifetime_stage ≤ stageRank p'.lifetime_stage
        rw [hmap] at hp'
        obtain ⟨q, hq, hfq⟩ := List.mem_map.mp hp'
        have hpq : p = q := by
          apply nodup_mem_eq s hnd p q hp hq
          rw [hpid, ← hfq, hid q]
        rw [hpq, ← hfq]
        exact hrank hnd q hq

/-- C8: along any sequence of modelled core operations, every project's
lifetime stage only moves forward in the draft → ongoing → finalizing →
finished order (assuming unique project keys); no core operation moves a
stage backward. -/
theorem project_stage_monotone (s : DBState) (ops : List CoreOp)
    (hnd : ProjectIdsNodup s) : StageMono s (runOps s ops) := by
  induction ops generalizing s with
  | nil => exact stageMono_refl s hnd
  | cons op ops ih =>
    have hstep := step_mono op s hnd
    have hnd1 : ProjectIdsNodup (runExcept s (applyOp op s)) := by
      show (List.map (fun p => p.id) (runExcept s (applyOp op s)).projects).Nodup
      rw [hstep.1]
      exact hnd
    have hrest := ih (runExcept s (applyOp op s)) hnd1
    show StageMono s (runOps (runExcept s (applyOp op s)) ops)
    intro p hp p'' hp'' hid
    have hpid : p.id ∈ (runExcept s (applyOp op s)).projects.map (fun p => p.id) := by
      rw [hstep.1]
      exact List.mem_map.mpr ⟨p, hp, rfl⟩
    obtain ⟨p', hp', hpid'⟩ := List.mem_map.mp hpid
    exact le_trans (hstep.2 p hp p' hp' hpid'.symm)
      (hrest p' hp' p'' hp'' (hpid'.trans hid))

/-- Witness for C8: publishing the sample draft project and then requesting
nothing leaves all stages monotone. -/
theorem project_stage_monotone_witness :
    StageMono pubState (runOps pubState
      [CoreOp.publishProject modAcc 1 99]) :=
  project_stage_monotone pubState [CoreOp.publishProject modAcc 1 99]
    (by show (pubState.projects.map (fun p => p.id)).Nodup; decide)

/-! Section: C6: publishing a draft project -/

/-- C6: for a draft project and an authorized caller (admin or creator),
publishing succeeds exactly when the project has a non-empty organizer, at
least one activity, and 1-3 competences on every activity; on success the
stage becomes ongoing and every moderator receives a moderator-role
notification, and on failure the request aborts with the store (hence the
stage) unchanged. -/
theorem publish_project_spec (s : DBState) (caller : Account) (project_id : Nat)
    (now : Int) (project : Project)
    (hfp : findProject s project_id = some project)
    (hstage : project.lifetime_stage = LifetimeStage.draft)
    (hauth : caller.is_admin = true ∨ project.creator_email = caller.email) :
    ((∃ s', publish_project s caller project_id now = Except.ok s') ↔
      (project.organizer ≠ "" ∧ projectActivities s project_id ≠ [] ∧
       ∀ a ∈ projectActivities s project_id,
         1 ≤ a.competences.length ∧ a.competences.length ≤ 3)) ∧
    (∀ s', publish_project s caller project_id now = Except.ok s' →
      findProject s' project_id =
        some { project with lifetime_stage := LifetimeStage.ongoing } ∧
      ∀ m ∈ project.moderators,
        mkNotification m NotificationType.added_as_moderator now
          (some project_id) none none (some caller.email) ∈ s'.notifications) ∧
    (isFailure (publish_project s caller project_id now) = true →
      runExcept s (publish_project s caller project_id now) = s) := by
  have hpid : (project.id == project_id) = true := by
    have hfp' := hfp
    unfold findProject at hfp'
    have hpred := List.find?_some hfp'
    exact hpred
  have hred : publish_project s caller project_id now =
      (if project.organizer = "" then Except.error 400
       else if projectActivities s project_id = [] then Except.error 400
       else if ¬(∀ a ∈ projectActivities s project_id,
           1 ≤ a.competences.length ∧ a.competences.length ≤ 3) then Except.error 400
       else
         Except.ok
           { s with
             projects := s.projects.map (fun q =>
               if q.id == project_id then
                 { q with lifetime_stage := LifetimeStage.ongoing }
               else q)
             notifications := s.notifications ++
               project.moderators.map (fun m =>
                 mkNotification m NotificationType.added_as_moderator now
                   (some project_id) none none (some caller.email)) }) := by
    unfold publish_project
    rw [hfp]
    dsimp only
    rw [if_neg (not_not_intro hstage),
      if_neg (fun hc => hauth.elim (fun h => hc.1 h) (fun h => hc.2 h))]
  refine ⟨⟨?_, ?_⟩, ?_, fun h => runExcept_error s _ h⟩
  · rintro ⟨s', hs'⟩
    rw [hred] at hs'
    by_cases h1 : project.organizer = ""
    · rw [if_pos h1] at hs'; cases hs'
    rw [if_neg h1] at hs'
    by_cases h2 : projectActivities s project_id = []
    · rw [if_pos h2] at hs'; cases hs'
    rw [if_neg h2] at hs'
    by_cases h3 : ∀ a ∈ projectActivities s project_id,
        1 ≤ a.competences.length ∧ a.competences.length ≤ 3
    · exact ⟨h1, h2, h3⟩
    · rw [if_pos h3] at hs'; cases hs'
  · rintro ⟨h1, h2, h3⟩
    rw [hred, if_neg h1, if_neg h2, if_neg (not_not_intro h3)]
    exact ⟨_, rfl⟩
  · intro s' hs'
    rw [hred] at hs'
    by_cases h1 : project.organizer = ""
    · rw [if_pos h1] at hs'; cases hs'
    rw [if_neg h1] at hs'
    by_cases h2 : projectActivities s project_id = []
    · rw [if_pos h2] at hs'; cases hs'
    rw [if_neg h2] at hs'
    by_cases h3 : ∀ a ∈ projectActivities s project_id,
        1 ≤ a.competences.length ∧ a.competences.length ≤ 3
    · rw [if_neg (not_not_intro h3)] at hs'
      obtain hX := (Except.ok.inj hs').symm
      subst hX
      constructor
      · have hp : ∀ a : Project,
            ((fun a : Project => a.id == project_id)
              ((fun q : Project =>
                if q.id == project_id then
                  { q with lifetime_stage := LifetimeStage.ongoing }
                else q) a)) =
            ((fun a : Project => a.id == project_id) a) := by
          intro a
          dsimp only
          by_cases hid : (a.id == project_id) = true
          · rw [if_pos hid]
          · rw [if_neg hid]
        unfold findProject
        dsimp only
        rw [find?_map_of_pred_preserved s.projects (fun a => a.id == project_id)
          (fun q => if q.id == project_id then
            { q with lifetime_stage := LifetimeStage.ongoing } else q) hp]
        unfold findProject at hfp
        rw [hfp]
        dsimp only [Option.map]
        rw [if_pos hpid]
      · intro m hm
        dsimp only
        refine List.mem_append_right _ (List.mem_map.mpr ⟨m, hm, rfl⟩)
    · rw [if_pos h3] at hs'; cases hs'

/-- Witness for C6: publishing the sample draft project (organizer set, one
activity with two competences) by its creator succeeds, sets the stage to
ongoing, and notifies the moderator. -/
theorem publish_project_spec_witness :
    (∃ s', publish_project pubState modAcc 1 99 = Except.ok s') ∧
    ∀ s', publish_project pubState modAcc 1 99 = Except.ok s' →
      findProject s' 1 = some ⟨1, "Hackathon", "Org", "mod@example.org",
        ["mod@example.org"], LifetimeStage.ongoing, ReviewStatus.unreviewed, none, 0⟩ ∧
      mkNotification "mod@example.org" NotificationType.added_as_moderator 99
        (some 1) none none (some "mod@example.org") ∈ s'.notifications := by
  have h := publish_project_spec pubState modAcc 1 99 pubProject rfl rfl (Or.inr rfl)
  refine ⟨h.1.mpr ⟨by decide, by decide, by decide⟩, fun s' hs' => ?_⟩
  obtain ⟨hfind, hmods⟩ := h.2.1 s' hs'
  exact ⟨hfind, hmods "mod@example.org" (by decide)⟩

/-! Section: C7: reviewing a finalizing project -/

/-- C7 (amended): for a finalizing project pending review and an admin
caller, an approved review succeeds, stores review status approved, forces
the stage to finished, notifies every moderator of the decision, and sends a
claim-innopoints notification to the applicant of every application across
all the project's activities — internal activities included (the code does
not filter internal activities here); a rejected review also notifies every
moderator. -/
theorem review_project_approved_amended (s : DBState) (caller : Account)
    (project_id : Nat) (fb : Option String) (now : Int) (project : Project)
    (hfp : findProject s project_id = some project)
    (hstage : project.lifetime_stage = LifetimeStage.finalizing)
    (hrev : project.review_status = ReviewStatus.pending)
    (hadmin : caller.is_admin = true) :
    (∃ s', review_project s caller project_id "approved" fb now = Except.ok s' ∧
      (∃ af, findProject s' project_id = some
        { project with
          review_status := ReviewStatus.approved
          lifetime_stage := LifetimeStage.finished
          admin_feedback := af }) ∧
      (∀ m ∈ project.moderators,
        mkNotification m NotificationType.project_review_status_changed now
          (some project_id) none none none ∈ s'.notifications) ∧
      (∀ activity ∈ projectActivities s project_id,
        ∀ application ∈ activityApplications s activity.id,
          claimNotif application.applicant_email project_id activity.id
            application.id now ∈ s'.notifications)) ∧
    (∀ s', review_project s caller project_id "rejected" fb now = Except.ok s' →
      ∀ m ∈ project.moderators,
        mkNotification m NotificationType.project_review_status_changed now
          (some project_id) none none none ∈ s'.notifications) := by
  have hpid : (project.id == project_id) = true := by
    have hfp' := hfp
    unfold findProject at hfp'
    have hpred := List.find?_some hfp'
    exact hpred
  constructor
  · -- the approved branch
    unfold review_project
    rw [hfp]
    dsimp only
    rw [if_neg (not_not_intro hstage), if_neg (not_not_intro hadmin),
      if_neg (not_not_intro hrev)]
    have hpr : parseReview "approved" = some ReviewStatus.approved := rfl
    rw [hpr]
    dsimp only
    rw [if_pos rfl, if_pos rfl]
    refine ⟨_, rfl, ?_, ?_, ?_⟩
    · -- the stored project
      refine ⟨match fb with | some t => some t | none => project.admin_feedback, ?_⟩
      have hp : ∀ a : Project,
          ((fun a : Project => a.id == project_id)
            ((fun q : Project =>
              if q.id == project_id then
                { project with
                  review_status := ReviewStatus.approved
                  lifetime_stage := LifetimeStage.finished
                  admin_feedback :=
                    match fb with
                    | some t => some t
                    | none => project.admin_feedback }
              else q) a)) =
          ((fun a : Project => a.id == project_id) a) := by
        intro a
        dsimp only
        by_cases hid : (a.id == project_id) = true
        · rw [if_pos hid]
          show (project.id == project_id) = (a.id == project_id)
          rw [hpid, hid]
        · rw [if_neg hid]
      unfold findProject
      dsimp only
      rw [find?_map_of_pred_preserved s.projects (fun a => a.id == project_id)
        _ hp]
      unfold findProject at hfp
      rw [hfp]
      dsimp only [Option.map]
      rw [if_pos hpid]
    · -- moderators notified
      intro m hm
      dsimp only
      rw [List.append_assoc]
      exact List.mem_append_right _
        (List.mem_append_left _ (List.mem_map.mpr ⟨m, hm, rfl⟩))
    · -- every application claimed, internal activities included
      intro activity hact application happ
      dsimp only
      rw [List.append_assoc]
      refine List.mem_append_right _ (List.mem_append_right _ ?_)
      exact List.mem_flatMap.mpr ⟨activity, hact,
        List.mem_map.mpr ⟨application, happ, rfl⟩⟩
  · -- the rejected branch
    intro s' hs'
    unfold review_project at hs'
    rw [hfp] at hs'
    dsimp only at hs'
    rw [if_neg (not_not_intro hstage), if_neg (not_not_intro hadmin),
      if_neg (not_not_intro hrev)] at hs'
    have hpr : parseReview "rejected" = some ReviewStatus.rejected := rfl
    rw [hpr] at hs'
    dsimp only at hs'
    obtain hX := (Except.ok.inj hs').symm
    subst hX
    intro m hm
    dsimp only
    rw [List.append_assoc]
    exact List.mem_append_right _
      (List.mem_append_left _ (List.mem_map.mpr ⟨m, hm, rfl⟩))

/-- Counterexample for C7 as stated: on the sample finalizing project with an
internal moderation activity, an approved review creates a claim-innopoints
notification for the internal application too, so the set of claim
notifications is not confined to non-internal applications. -/
theorem review_project_internal_counterexample :
    ∃ s', review_project revState adminAcc 1 "approved" none 77 = Except.ok s' ∧
      ¬ reviewClaimsOnlyNonInternal revState s' 1 := by
  refine ⟨runExcept revState (review_project revState adminAcc 1 "approved" none 77),
    rfl, ?_⟩
  intro hclaim
  have hinst := hclaim (claimNotif "mod@example.org" 1 20 200 77)
    (by decide) (by decide) (by decide)
  revert hinst
  decide

/-- Witness for C7: approving the sample finalizing project succeeds, stores
the finished stage, notifies the moderator, and claims innopoints for both
the plain and the internal application. -/
theorem review_project_approved_amended_witness :
    ∃ s', review_project revState adminAcc 1 "approved" none 77 = Except.ok s' ∧
      (∃ af, findProject s' 1 = some ⟨1, "Hackathon", "Org", "mod@example.org",
        ["mod@example.org"], LifetimeStage.finished, ReviewStatus.approved, af, 0⟩) ∧
      (∀ m ∈ (["mod@example.org"] : List String),
        mkNotification m NotificationType.project_review_status_changed 77
          (some 1) none none none ∈ s'.notifications) ∧
      (∀ activity ∈ projectActivities revState 1,
        ∀ application ∈ activityApplications revState activity.id,
          claimNotif application.applicant_email 1 activity.id
            application.id 77 ∈ s'.notifications) :=
  (review_project_approved_amended revState adminAcc 1 none 77
    ⟨1, "Hackathon", "Org", "mod@example.org", ["mod@example.org"],
      LifetimeStage.finalizing, ReviewStatus.pending, none, 0⟩
    rfl rfl rfl rfl).1

/-! Section: C5: the timeline feed -/

/-- C5 (amended): for every account and date window the timeline feed is
sorted by `entry_time` descending (non-strictly: rows with equal times may be
adjacent, in unspecified relative order), and the `more` flag is true exactly
when at least one of the four source queries has a matching row at or before
`start_date`. -/
theorem timeline_sorted_amended (s : DBState) (user : String)
    (start_date end_date : Int) :
    List.Sorted timeDesc (get_timeline s user start_date end_date) ∧
    (timelineMore s user start_date = true ↔
      ((∃ e ∈ appEvents s user, e.entry_time ≤ start_date) ∨
       (∃ e ∈ purchaseEvents s user, e.entry_time ≤ start_date) ∨
       (∃ e ∈ promotionEvents s user, e.entry_time ≤ start_date) ∨
       (∃ e ∈ projectEvents s user, e.entry_time ≤ start_date))) := by
  constructor
  · exact List.sorted_insertionSort timeDesc _
  · unfold timelineMore
    simp only [Bool.or_eq_true, List.any_eq_true, decide_eq_true_eq]
    constructor
    · rintro (((h | h) | h) | h)
      · exact Or.inl h
      · exact Or.inr (Or.inl h)
      · exact Or.inr (Or.inr (Or.inl h))
      · exact Or.inr (Or.inr (Or.inr h))
    · rintro (h | h | h | h)
      · exact Or.inl (Or.inl (Or.inl h))
      · exact Or.inl (Or.inl (Or.inr h))
      · exact Or.inl (Or.inr h)
      · exact Or.inr h

/-- Counterexample for C5 as stated: with an application event and a purchase
event at the same `entry_time`, the feed is not *strictly* descending. -/
theorem timeline_not_strictly_sorted :
    ¬ List.Sorted (fun a b : TimelineEvent => b.entry_time < a.entry_time)
      (get_timeline tlState "vol@example.org" 0 10) := by
  decide

end Innopoints
